import Mathlib

attribute [local semireducible] Rat.add Rat.mul Rat.sub Rat.inv Rat.ofScientific

set_option maxRecDepth 1000000

/-- Decidable equality for `Except`, used to evaluate the solver on concrete
inputs. -/
instance {ε α : Type} [DecidableEq ε] [DecidableEq α] : DecidableEq (Except ε α) := fun a b =>
  match a, b with
  | .error e, .error f =>
    if h : e = f then isTrue (by rw [h])
    else isFalse (fun hh => by cases hh; exact h rfl)
  | .error _, .ok _ => isFalse (fun hh => by cases hh)
  | .ok _, .error _ => isFalse (fun hh => by cases hh)
  | .ok x, .ok y =>
    if h : x = y then isTrue (by rw [h])
    else isFalse (fun hh => by cases hh; exact h rfl)

namespace Simplex

/-- Numpy dtype tag of an input array: `Tableau.__init__` accepts only `float64`. -/
inductive Dtype
  | float64
  | int64
  | objectType
deriving DecidableEq, Repr

/-- A numpy ndarray: a homogeneous dtype tag plus numeric contents modelled as
exact rationals (shallow embedding of IEEE doubles in the regime the
algorithm exercises). -/
structure NDArray where
  dtype : Dtype
  data : List (List ℚ)
deriving DecidableEq, Repr

/-- Exceptions the engine can raise: the three constructor-time checks of
`Tableau.__init__` (TypeError for non-float64 dtype, ValueError for a negative
RHS entry, ValueError for bad variable counts) and the ValueError numpy's
`nanargmin` raises on an all-NaN slice inside `find_pivot`. -/
inductive SimplexError
  | typeErr
  | rhsErr
  | dimErr
  | allNanSlice
deriving DecidableEq, Repr

/-- An objective tag, the strings "max" / "min" of the source. -/
inductive Objective
  | obMax
  | obMin
deriving DecidableEq, Repr

/-- The Tableau object's state: matrix plus bookkeeping fields, exactly the
attributes `__init__` populates (the never-rewritten `row_idx` / `col_idx`
attributes are omitted: the source only ever stores `None` in them). -/
structure Tableau where
  tableau : List (List ℚ)
  n_rows : ℕ
  n_vars : ℤ
  n_artificial_vars : ℤ
  n_stages : ℕ
  n_slack : ℤ
  objectives : List Objective
  col_titles : List String
  stop_iter : Bool
deriving DecidableEq, Repr

/-- Entry `m[r, c]` of a matrix, 0 outside the matrix (the source only reads
in-bounds positions on its code paths). -/
def getEntry (m : List (List ℚ)) (r c : ℕ) : ℚ := (m.getD r []).getD c 0

/-- Entry `row[-1]` of a matrix row. -/
def lastEntry (row : List ℚ) : ℚ := row.getD (row.length - 1) 0

/-- The check `(tableau[:, -1] >= 0).all()` of `__init__`. -/
def rhsNonneg (data : List (List ℚ)) : Bool :=
  data.all (fun row => decide (0 ≤ lastEntry row))

/-- The method `generate_col_titles`: decision-variable labels, slack labels
(none when `n_slack` is negative, as Python's `range` of a negative number is
empty), then "RHS". -/
def generate_col_titles (n_vars n_slack : ℤ) : List String :=
  ((List.range n_vars.toNat).map (fun i => s!"x{i+1}")) ++
  ((List.range n_slack.toNat).map (fun i => s!"s{i+1}")) ++ ["RHS"]

/-- The constructor `Tableau.__init__`, with its three checks in source order;
on success it populates the attributes exactly as the source does. -/
def mkTableau (arr : NDArray) (n_vars n_artificial_vars : ℤ) :
    Except SimplexError Tableau :=
  if arr.dtype ≠ Dtype.float64 then .error .typeErr
  else if ¬ rhsNonneg arr.data then .error .rhsErr
  else if n_vars < 2 ∨ n_artificial_vars < 0 then .error .dimErr
  else
    let n_cols : ℤ := ((arr.data.getD 0 []).length : ℤ)
    Except.ok
      { tableau := arr.data
        n_rows := arr.data.length
        n_vars := n_vars
        n_artificial_vars := n_artificial_vars
        n_stages := if 0 < n_artificial_vars then 2 else 1
        n_slack := n_cols - n_vars - n_artificial_vars - 1
        objectives := if n_artificial_vars = 0 then [.obMax] else [.obMin, .obMax]
        col_titles := generate_col_titles n_vars (n_cols - n_vars - n_artificial_vars - 1)
        stop_iter := false }

/-- Numpy `argmax` on a rational vector: first index attaining the maximum
(0 on the empty list, never exercised by the source's code paths). -/
def argmaxQ : List ℚ → ℕ
  | [] => 0
  | [_] => 0
  | x :: y :: xs =>
    if x < (y :: xs).getD (argmaxQ (y :: xs)) 0 then argmaxQ (y :: xs) + 1 else 0

/-- Numpy `nanargmin` on a vector with NaN holes (`none`): first index
attaining the minimum over the non-NaN entries, `none` when every entry is NaN
(the case where numpy raises "All-NaN slice encountered"). -/
def nanargminQ : List (Option ℚ) → Option ℕ
  | [] => none
  | none :: xs => (nanargminQ xs).map (· + 1)
  | some x :: xs =>
    match nanargminQ xs with
    | none => some 0
    | some j => if (xs.getD j none).getD 0 < x then some (j + 1) else some 0

/-- The sign multiplier `(objective == "min") - (objective == "max")`. -/
def signOf (o : Objective) : ℚ :=
  (if o = Objective.obMin then 1 else 0) - (if o = Objective.obMax then 1 else 0)

/-- The method `find_pivot`. It returns the updated object state (only
`stop_iter` can change) together with the Python return value: `ok (0, 0)` for
the stop sentinel, `ok (row_idx, col_idx)` for a chosen pivot, or the
ValueError that `np.nanargmin` raises when every ratio-test quotient is NaN. -/
def findPivot (t : Tableau) : Tableau × Except SimplexError (ℕ × ℕ) :=
  let sgn := signOf (t.objectives.getLastD Objective.obMax)
  let objRow := (t.tableau.getD 0 []).dropLast
  let col_idx := argmaxQ (objRow.map (fun x => sgn * x))
  if sgn * getEntry t.tableau 0 col_idx ≤ 0 then
    ({ t with stop_iter := true }, .ok (0, 0))
  else
    let consRows := (t.tableau.drop t.n_stages).take (t.n_rows - t.n_stages)
    let quotients := consRows.map (fun row =>
      if 0 < row.getD col_idx 0
      then some (lastEntry row / row.getD col_idx 0)
      else none)
    match nanargminQ quotients with
    | none => (t, .error .allNanSlice)
    | some i => (t, .ok (i + t.n_stages, col_idx))

/-- The method `pivot`: normalize the pivot row by the reciprocal of the pivot
value, subtract `coeff * normalized_pivot_row` from every row (each row's
`coeff` is its own entry in the pivot column, read before the row is updated),
then overwrite the pivot row with the normalized copy. -/
def pivot (t : Tableau) (row_idx col_idx : ℕ) : Tableau :=
  let piv_row := t.tableau.getD row_idx []
  let piv_val := piv_row.getD col_idx 0
  let npr := piv_row.map (fun x => x * (1 / piv_val))
  let newMat := t.tableau.map (fun row =>
    List.zipWith (fun a b => a + (-(row.getD col_idx 0)) * b) row npr)
  { t with tableau := newMat.set row_idx npr }

/-- One row after `np.delete(tableau, slice(-k-1, -1), axis=1)`: drop the `k`
columns just before the RHS column (indices clamp like Python slices). -/
def deleteCols (row : List ℚ) (k : ℕ) : List ℚ :=
  row.take (row.length - k - 1) ++ row.drop (row.length - 1)

/-- The method `change_stage`: pop the last objective; if none remain, return
with only the stack changed; otherwise delete the artificial-variable columns
and the leading objective row and reset the bookkeeping fields. -/
def changeStage (t : Tableau) : Tableau :=
  let objectives := t.objectives.dropLast
  if objectives.isEmpty then { t with objectives := objectives }
  else
    { t with
      objectives := objectives
      tableau := (t.tableau.map (fun row => deleteCols row t.n_artificial_vars.toNat)).drop 1
      n_stages := 1
      n_rows := t.n_rows - 1
      n_artificial_vars := 0
      stop_iter := false }

/-- The loop body of `interpret_tableau` for decision-variable column `i`:
`np.nonzero` of the column, then the unit-column test and the RHS lookup. -/
def basicVar (t : Tableau) (i : ℕ) : Option (String × ℚ) :=
  match (List.range t.tableau.length).filter
      (fun r => decide (getEntry t.tableau r i ≠ 0)) with
  | [r] =>
    if getEntry t.tableau r i = 1
    then some (t.col_titles.getD i "", lastEntry (t.tableau.getD r []))
    else none
  | _ => none

/-- The method `interpret_tableau`: the objective value is the absolute value
of `tableau[0, -1]`; each decision-variable column whose nonzero entries are a
single 1 contributes its row's RHS under that column's label; the result keeps
Python's dict insertion order ("P" first, then ascending column index). The
method reads but never writes the object, so it is a pure function of the
tableau state. -/
def interpretTableau (t : Tableau) : List (String × ℚ) :=
  ("P", |lastEntry (t.tableau.getD 0 [])|) ::
  (List.range t.n_vars.toNat).filterMap (basicVar t)

/-- The class attribute `maxiter = 100`. -/
def maxiter : ℕ := 100

/-- The `for` loop of `run_simplex`, one fuel unit per iteration: return the
interpreted solution once the objective stack is empty, otherwise find a pivot
and either change stage (stop flag) or pivot; with the budget exhausted the
source returns the empty dict `{}`. -/
def runLoop : ℕ → Tableau → Except SimplexError (List (String × ℚ))
  | 0, _ => .ok []
  | Nat.succ fuel, t =>
    if t.objectives.isEmpty then .ok (interpretTableau t)
    else
      match findPivot t with
      | (_, .error e) => .error e
      | (t', .ok rc) =>
        if t'.stop_iter then runLoop fuel (changeStage t')
        else runLoop fuel (pivot t' rc.1 rc.2)

/-- The method `run_simplex`. -/
def runSimplex (t : Tableau) : Except SimplexError (List (String × ℚ)) :=
  runLoop maxiter t

/-- One iteration of the `run_simplex` loop seen as a state observation:
`ok none` when the loop body returns (objective stack empty), `error e` when
`find_pivot` raises, `ok (some t1)` when the loop continues with state `t1`. -/
def stepT (t : Tableau) : Except SimplexError (Option Tableau) :=
  if t.objectives.isEmpty then .ok none
  else
    match findPivot t with
    | (_, .error e) => .error e
    | (t', .ok rc) =>
      .ok (some (if t'.stop_iter then changeStage t' else pivot t' rc.1 rc.2))

/-- The state after `n` iterations of the loop: `ok (some t)` while the loop
is still running, `ok none` once it returned, `error e` once it raised. -/
def iterT : ℕ → Tableau → Except SimplexError (Option Tableau)
  | 0, t => .ok (some t)
  | Nat.succ n, t =>
    match stepT t with
    | .error e => .error e
    | .ok none => .ok none
    | .ok (some t1) => iterT n t1

/-- Whether the loop is still running (has neither returned nor raised). -/
def stillRunning (e : Except SimplexError (Option Tableau)) : Bool :=
  match e with
  | .ok (some _) => true
  | _ => false

/-- The single-phase tableau of the scenario LP: maximize `3x1 + 2x2` subject
to `x1 + x2 <= 4`, `x1 <= 2` (objective row negated, slack columns `s1 s2`). -/
def scenArr : NDArray :=
  ⟨Dtype.float64, [[-3,-2,0,0,0],[1,1,1,0,4],[1,0,0,1,2]]⟩

/-- A validated two-phase tableau on which a `find_pivot`-chosen pivot drives
an objective-row RHS entry negative. -/
def rhsBreakArr : NDArray :=
  ⟨Dtype.float64, [[-1,0,0,0],[2,0,0,1],[1,0,0,1]]⟩

/-- A validated tableau whose entering column has no positive constraint-row
coefficient: the ratio test excludes every row. -/
def unbArr : NDArray :=
  ⟨Dtype.float64, [[-1,0,0,0],[-1,1,0,5]]⟩

/-- Beale's cycling linear program (maximize `(3/4)x1 - 150x2 + (1/50)x3 - 6x4`),
on which the most-positive-coefficient entering rule with first-row ratio
tie-breaking cycles with period 6. -/
def bealeArr : NDArray :=
  ⟨Dtype.float64,
   [[-3/4, 150, -1/50, 6, 0, 0, 0, 0],
    [1/4, -60, -1/25, 9, 1, 0, 0, 0],
    [1/2, -90, -1/50, 3, 0, 1, 0, 0],
    [0, 0, 1, 0, 0, 0, 1, 1]]⟩

/-- A two-phase tableau of an infeasible LP (`x1 + x2 <= 1` and `x1 + x2 = 3`):
columns `x1 x2 s1 a1 RHS`, row 0 the phase-1 objective, row 1 the real
objective `maximize x1 + x2`. -/
def infArr : NDArray :=
  ⟨Dtype.float64, [[1,1,0,0,3],[-1,-1,0,0,0],[1,1,1,0,1],[1,1,0,1,3]]⟩

/-- An integer-dtype matrix (numpy would infer dtype int64 for these entries):
every entry is an integer, hence a real number. -/
def intArr : NDArray :=
  ⟨Dtype.int64, [[1,1,4],[1,0,2]]⟩

/-- A float matrix with 3 columns used with `n_vars = 5`: the declared counts
exceed the matrix width. -/
def wideArr : NDArray :=
  ⟨Dtype.float64, [[1,0,2],[0,1,3]]⟩

theorem getD_some_lt_length {xs : List (Option ℚ)} {j : ℕ} {w : ℚ}
    (h : xs.getD j none = some w) : j < xs.length := by
  by_contra hc
  rw [List.getD_eq_default _ _ (Nat.le_of_not_lt hc)] at h
  exact Option.noConfusion h

theorem argmaxQ_lt_length : ∀ (xs : List ℚ), xs ≠ [] → argmaxQ xs < xs.length
  | [], h => absurd rfl h
  | [_], _ => by simp [argmaxQ]
  | x :: y :: xs, _ => by
    have ih := argmaxQ_lt_length (y :: xs) (by simp)
    simp only [argmaxQ]
    split
    · simpa using ih
    · simp

theorem getD_le_argmaxQ : ∀ (xs : List ℚ) (j : ℕ), j < xs.length →
    xs.getD j 0 ≤ xs.getD (argmaxQ xs) 0
  | [], j, hj => by simp at hj
  | [_], 0, _ => le_refl _
  | [_], Nat.succ k, hj => by simp at hj
  | x :: y :: xs, j, hj => by
    have ih := fun k hk => getD_le_argmaxQ (y :: xs) k hk
    simp only [argmaxQ]
    split
    · rename_i hlt
      match j with
      | 0 => simpa using le_of_lt hlt
      | Nat.succ k =>
        have hk : k < (y :: xs).length := by simpa using hj
        simpa using ih k hk
    · rename_i hge
      match j with
      | 0 => exact le_refl _
      | Nat.succ k =>
        have hk : k < (y :: xs).length := by simpa using hj
        have h1 : (y :: xs).getD k 0 ≤ (y :: xs).getD (argmaxQ (y :: xs)) 0 := ih k hk
        have h2 : (y :: xs).getD (argmaxQ (y :: xs)) 0 ≤ x := le_of_not_lt hge
        simpa using le_trans h1 h2

theorem nanargminQ_eq_none_iff : ∀ (xs : List (Option ℚ)),
    nanargminQ xs = none ↔ ∀ o ∈ xs, o = none
  | [] => by simp [nanargminQ]
  | none :: xs => by
    have ih := nanargminQ_eq_none_iff xs
    simp [nanargminQ, ih]
  | some x :: xs => by
    constructor
    · intro h
      exfalso
      simp only [nanargminQ] at h
      rcases hx : nanargminQ xs with _ | j
      · rw [hx] at h; dsimp only at h; exact Option.noConfusion h
      · rw [hx] at h
        dsimp only at h
        by_cases hc : (xs.getD j none).getD 0 < x
        · rw [if_pos hc] at h; exact Option.noConfusion h
        · rw [if_neg hc] at h; exact Option.noConfusion h
    · intro h
      exact absurd (h (some x) (List.mem_cons_self (some x) xs)) (by simp)

theorem nanargminQ_some_facts : ∀ (xs : List (Option ℚ)) (i : ℕ),
    nanargminQ xs = some i →
    i < xs.length ∧ ∃ v, xs.getD i none = some v ∧
      (∀ j, j < xs.length → ∀ w, xs.getD j none = some w → v ≤ w) ∧
      (∀ j, j < i → ∀ w, xs.getD j none = some w → v < w)
  | [], i, h => by simp [nanargminQ] at h
  | none :: xs, i, h => by
    simp only [nanargminQ] at h
    rcases hmx : nanargminQ xs with _ | i'
    · rw [hmx] at h; exact absurd h (by simp)
    · rw [hmx] at h
      simp only [Option.map_some'] at h
      obtain rfl : i = i' + 1 := by simpa using h.symm
      obtain ⟨hlen, v, hv, hmin, hfirst⟩ := nanargminQ_some_facts xs i' hmx
      refine ⟨by simpa using hlen, v, by simpa using hv, ?_, ?_⟩
      · intro j hj w hw
        match j with
        | 0 => exact absurd hw (by simp)
        | Nat.succ k => exact hmin k (by simpa using hj) w (by simpa using hw)
      · intro j hj w hw
        match j with
        | 0 => exact absurd hw (by simp)
        | Nat.succ k => exact hfirst k (by omega) w (by simpa using hw)
  | some x :: xs, i, h => by
    simp only [nanargminQ] at h
    rcases hx : nanargminQ xs with _ | j0
    · rw [hx] at h
      dsimp only at h
      obtain rfl : i = 0 := by simpa using h.symm
      have hall := (nanargminQ_eq_none_iff xs).mp hx
      refine ⟨by simp, x, by simp, ?_, fun j hj => absurd hj (Nat.not_lt_zero j)⟩
      intro j hj w hw
      match j with
      | 0 =>
        simp only [List.getD_cons_zero, Option.some_inj] at hw
        exact hw.le
      | Nat.succ k =>
        have hk : k < xs.length := getD_some_lt_length (by simpa using hw)
        have hnone : xs.getD k none = none := by
          rw [List.getD_eq_getElem xs none hk]
          exact hall _ (List.getElem_mem hk)
        rw [List.getD_cons_succ, hnone] at hw
        exact Option.noConfusion hw
    · rw [hx] at h
      dsimp only at h
      obtain ⟨hlen, v', hv', hmin, hfirst⟩ := nanargminQ_some_facts xs j0 hx
      have htv : (xs.getD j0 none).getD 0 = v' := by rw [hv']; rfl
      by_cases hc : (xs.getD j0 none).getD 0 < x
      · rw [if_pos hc] at h
        obtain rfl : i = j0 + 1 := by simpa using h.symm
        rw [htv] at hc
        refine ⟨by simpa using hlen, v', by simpa using hv', ?_, ?_⟩
        · intro j hj w hw
          match j with
          | 0 =>
            simp only [List.getD_cons_zero, Option.some_inj] at hw
            exact le_of_lt (hw ▸ hc)
          | Nat.succ k => exact hmin k (by simpa using hj) w (by simpa using hw)
        · intro j hj w hw
          match j with
          | 0 =>
            simp only [List.getD_cons_zero, Option.some_inj] at hw
            exact hw ▸ hc
          | Nat.succ k => exact hfirst k (by omega) w (by simpa using hw)
      · rw [if_neg hc] at h
        obtain rfl : i = 0 := by simpa using h.symm
        rw [htv] at hc
        refine ⟨by simp, x, by simp, ?_, fun j hj => absurd hj (Nat.not_lt_zero j)⟩
        intro j hj w hw
        match j with
        | 0 =>
          simp only [List.getD_cons_zero, Option.some_inj] at hw
          exact hw.le
        | Nat.succ k =>
          have hvw : v' ≤ w :=
            hmin k (getD_some_lt_length (by simpa using hw)) w (by simpa using hw)
          exact le_trans (le_of_not_lt hc) hvw

/-- The entering column `find_pivot` computes:
`np.argmax(sign * tableau[0, :-1])`. -/
def pivotCol (t : Tableau) : ℕ :=
  argmaxQ (((t.tableau.getD 0 []).dropLast).map
    (fun x => signOf (t.objectives.getLastD Objective.obMax) * x))

/-- The ratio-test quotient vector `find_pivot` computes:
`np.divide(dividend, divisor, out=nans, where=divisor > 0)`. -/
def quotientsOf (t : Tableau) : List (Option ℚ) :=
  ((t.tableau.drop t.n_stages).take (t.n_rows - t.n_stages)).map
    (fun row =>
      if 0 < row.getD (pivotCol t) 0
      then some (lastEntry row / row.getD (pivotCol t) 0)
      else none)

theorem findPivot_eq (t : Tableau) :
    findPivot t =
      if signOf (t.objectives.getLastD Objective.obMax) *
          getEntry t.tableau 0 (pivotCol t) ≤ 0 then
        ({ t with stop_iter := true }, .ok (0, 0))
      else
        match nanargminQ (quotientsOf t) with
        | none => (t, .error .allNanSlice)
        | some i => (t, .ok (i + t.n_stages, pivotCol t)) := rfl

theorem findPivot_tableau_eq (t : Tableau) : (findPivot t).1.tableau = t.tableau := by
  rw [findPivot_eq]
  split
  · rfl
  · rcases nanargminQ (quotientsOf t) with _ | i <;> rfl

theorem consRows_eq (t : Tableau) (hrows : t.n_rows = t.tableau.length) :
    (t.tableau.drop t.n_stages).take (t.n_rows - t.n_stages) =
      t.tableau.drop t.n_stages := by
  apply List.take_of_length_le
  simp [hrows]

theorem quotientsOf_length (t : Tableau) (hrows : t.n_rows = t.tableau.length) :
    (quotientsOf t).length = t.tableau.length - t.n_stages := by
  unfold quotientsOf
  rw [consRows_eq t hrows]
  simp

theorem quotientsOf_getD (t : Tableau) (hrows : t.n_rows = t.tableau.length)
    (k : ℕ) (hk : k < t.tableau.length - t.n_stages) :
    (quotientsOf t).getD k none =
      if 0 < getEntry t.tableau (t.n_stages + k) (pivotCol t)
      then some (lastEntry (t.tableau.getD (t.n_stages + k) []) /
        getEntry t.tableau (t.n_stages + k) (pivotCol t))
      else none := by
  unfold quotientsOf
  rw [consRows_eq t hrows]
  have hk2 : t.n_stages + k < t.tableau.length := by omega
  have hlen : k < ((t.tableau.drop t.n_stages).map (fun row =>
      if 0 < row.getD (pivotCol t) 0
      then some (lastEntry row / row.getD (pivotCol t) 0)
      else none)).length := by
    simp
    omega
  rw [List.getD_eq_getElem _ none hlen, List.getElem_map, List.getElem_drop]
  unfold getEntry
  rw [List.getD_eq_getElem t.tableau [] hk2]

theorem getD_map_mul (sgn : ℚ) (l : List ℚ) (j : ℕ) :
    (l.map (fun x => sgn * x)).getD j 0 = sgn * l.getD j 0 := by
  by_cases hj : j < l.length
  · rw [List.getD_eq_getElem _ _ (by simpa using hj), List.getElem_map,
      List.getD_eq_getElem _ _ hj]
  · rw [List.getD_eq_default _ _ (by simpa using Nat.le_of_not_lt hj),
      List.getD_eq_default _ _ (Nat.le_of_not_lt hj)]
    simp

theorem getD_dropLast (l : List ℚ) (j : ℕ) (hj : j < l.length - 1) :
    l.dropLast.getD j 0 = l.getD j 0 := by
  have h1 : j < l.dropLast.length := by
    simp only [List.length_dropLast]
    omega
  rw [List.getD_eq_getElem _ _ h1, List.getElem_dropLast,
    List.getD_eq_getElem _ _ (by omega)]

/-- When `find_pivot` does not stop and does not raise, the returned position
satisfies the ratio-test specification: the entering column improves the
active objective, the leaving row is a constraint row with strictly positive
divisor attaining the minimum quotient, and it is the first such row. -/
theorem findPivot_pivot_case (t : Tableau) (r c : ℕ)
    (hsi : t.stop_iter = false)
    (hrows : t.n_rows = t.tableau.length)
    (hp : findPivot t = (t, Except.ok (r, c))) :
    c = pivotCol t ∧
    0 < signOf (t.objectives.getLastD Objective.obMax) * getEntry t.tableau 0 c ∧
    t.n_stages ≤ r ∧ r < t.tableau.length ∧
    0 < getEntry t.tableau r c ∧
    (∀ i, t.n_stages ≤ i → i < t.tableau.length → 0 < getEntry t.tableau i c →
      lastEntry (t.tableau.getD r []) / getEntry t.tableau r c ≤
        lastEntry (t.tableau.getD i []) / getEntry t.tableau i c) ∧
    (∀ i, t.n_stages ≤ i → i < r → 0 < getEntry t.tableau i c →
      lastEntry (t.tableau.getD r []) / getEntry t.tableau r c <
        lastEntry (t.tableau.getD i []) / getEntry t.tableau i c) := by
  rw [findPivot_eq] at hp
  by_cases hstop : signOf (t.objectives.getLastD Objective.obMax) *
      getEntry t.tableau 0 (pivotCol t) ≤ 0
  · rw [if_pos hstop] at hp
    have h1 := congrArg (fun p => (p.1).stop_iter) hp
    simp only at h1
    rw [hsi] at h1
    exact absurd h1 (by simp)
  · rw [if_neg hstop] at hp
    rcases hq : nanargminQ (quotientsOf t) with _ | i
    · rw [hq] at hp
      dsimp only at hp
      exact absurd (congrArg (fun p => p.2) hp) (by simp)
    · rw [hq] at hp
      dsimp only at hp
      have hrc := congrArg (fun p => p.2) hp
      simp only at hrc
      have hpair : i + t.n_stages = r ∧ pivotCol t = c := by
        simpa using hrc
      obtain ⟨hr, hc⟩ := hpair
      obtain ⟨hilen, v, hv, hmin, hfirst⟩ := nanargminQ_some_facts (quotientsOf t) i hq
      rw [quotientsOf_length t hrows] at hilen
      have hrn : t.n_stages ≤ r := by omega
      have hrl : r < t.tableau.length := by omega
      have hvr := quotientsOf_getD t hrows i hilen
      rw [hv] at hvr
      have hri : t.n_stages + i = r := by omega
      rw [hri] at hvr
      by_cases hdiv : 0 < getEntry t.tableau r (pivotCol t)
      · rw [if_pos hdiv] at hvr
        have hveq : v = lastEntry (t.tableau.getD r []) /
            getEntry t.tableau r (pivotCol t) := by
          simpa using hvr
        subst hc
        refine ⟨rfl, lt_of_not_le hstop, hrn, hrl, hdiv, ?_, ?_⟩
        · intro j hj1 hj2 hj3
          have hk : j - t.n_stages < t.tableau.length - t.n_stages := by omega
          have hq2 := quotientsOf_getD t hrows (j - t.n_stages) hk
          have hjj : t.n_stages + (j - t.n_stages) = j := by omega
          rw [hjj, if_pos hj3] at hq2
          have := hmin (j - t.n_stages)
            (by rw [quotientsOf_length t hrows]; omega) _ hq2
          rw [hveq] at this
          exact this
        · intro j hj1 hj2 hj3
          have hk : j - t.n_stages < t.tableau.length - t.n_stages := by omega
          have hq2 := quotientsOf_getD t hrows (j - t.n_stages) hk
          have hjj : t.n_stages + (j - t.n_stages) = j := by omega
          rw [hjj, if_pos hj3] at hq2
          have := hfirst (j - t.n_stages) (by omega) _ hq2
          rw [hveq] at this
          exact this
      · rw [if_neg hdiv] at hvr
        exact absurd hvr (by simp)

theorem rowLen (m : List (List ℚ)) (ncols i : ℕ)
    (hrect : ∀ row ∈ m, row.length = ncols) (hi : i < m.length) :
    (m.getD i []).length = ncols := by
  rw [List.getD_eq_getElem _ _ hi]
  exact hrect _ (List.getElem_mem hi)

theorem lastEntry_getD (m : List (List ℚ)) (ncols i : ℕ)
    (hrect : ∀ row ∈ m, row.length = ncols) (hi : i < m.length) :
    lastEntry (m.getD i []) = getEntry m i (ncols - 1) := by
  unfold lastEntry getEntry
  rw [rowLen m ncols i hrect hi]

theorem pivot_tableau_length (t : Tableau) (r c : ℕ) :
    (pivot t r c).tableau.length = t.tableau.length := by
  simp [pivot]

theorem pivot_row_self (t : Tableau) (r c : ℕ) (hr : r < t.tableau.length) :
    (pivot t r c).tableau.getD r [] =
      (t.tableau.getD r []).map
        (fun x => x * (1 / (t.tableau.getD r []).getD c 0)) := by
  unfold pivot
  have h1 : r < ((t.tableau.map (fun row =>
      List.zipWith (fun a b => a + (-(row.getD c 0)) * b) row
        ((t.tableau.getD r []).map
          (fun x => x * (1 / (t.tableau.getD r []).getD c 0))))).set r
      ((t.tableau.getD r []).map
        (fun x => x * (1 / (t.tableau.getD r []).getD c 0)))).length := by
    simpa using hr
  exact (List.getD_eq_getElem _ _ h1).trans (List.getElem_set_self h1)

theorem pivot_row_other (t : Tableau) (r c i : ℕ) (hi : i < t.tableau.length)
    (hir : i ≠ r) :
    (pivot t r c).tableau.getD i [] =
      List.zipWith (fun a b => a + (-((t.tableau.getD i []).getD c 0)) * b)
        (t.tableau.getD i [])
        ((t.tableau.getD r []).map
          (fun x => x * (1 / (t.tableau.getD r []).getD c 0))) := by
  unfold pivot
  have h1 : i < ((t.tableau.map (fun row =>
      List.zipWith (fun a b => a + (-(row.getD c 0)) * b) row
        ((t.tableau.getD r []).map
          (fun x => x * (1 / (t.tableau.getD r []).getD c 0))))).set r
      ((t.tableau.getD r []).map
        (fun x => x * (1 / (t.tableau.getD r []).getD c 0)))).length := by
    simpa using hi
  rw [List.getD_eq_getElem _ _ h1, List.getElem_set_ne (Ne.symm hir) h1,
    List.getElem_map, List.getD_eq_getElem _ _ hi]

theorem pivot_rect (t : Tableau) (ncols r c : ℕ)
    (hrect : ∀ row ∈ t.tableau, row.length = ncols) (hr : r < t.tableau.length) :
    ∀ row ∈ (pivot t r c).tableau, row.length = ncols := by
  intro row hrow
  have hnpr : ((t.tableau.getD r []).map
      (fun x => x * (1 / (t.tableau.getD r []).getD c 0))).length = ncols := by
    simpa using rowLen t.tableau ncols r hrect hr
  unfold pivot at hrow
  rcases List.mem_or_eq_of_mem_set hrow with h | h
  · rcases List.mem_map.mp h with ⟨row0, hrow0, rfl⟩
    rw [List.length_zipWith, hrect _ hrow0, hnpr]
    exact Nat.min_self ncols
  · subst h
    exact hnpr

theorem pivot_entry_self (t : Tableau) (ncols r c j : ℕ)
    (hrect : ∀ row ∈ t.tableau, row.length = ncols)
    (hr : r < t.tableau.length) (hj : j < ncols) :
    getEntry (pivot t r c).tableau r j =
      getEntry t.tableau r j * (1 / getEntry t.tableau r c) := by
  unfold getEntry
  rw [pivot_row_self t r c hr]
  have hlen : (t.tableau.getD r []).length = ncols := rowLen t.tableau ncols r hrect hr
  have hj1 : j < ((t.tableau.getD r []).map
      (fun x => x * (1 / (t.tableau.getD r []).getD c 0))).length := by
    rw [List.length_map, hlen]
    exact hj
  rw [List.getD_eq_getElem _ _ hj1, List.getElem_map,
    List.getD_eq_getElem _ _ (by omega : j < (t.tableau.getD r []).length)]

theorem pivot_entry_other (t : Tableau) (ncols r c i j : ℕ)
    (hrect : ∀ row ∈ t.tableau, row.length = ncols)
    (hi : i < t.tableau.length) (hr : r < t.tableau.length)
    (hj : j < ncols) (hir : i ≠ r) :
    getEntry (pivot t r c).tableau i j =
      getEntry t.tableau i j +
        (-(getEntry t.tableau i c)) *
          (getEntry t.tableau r j * (1 / getEntry t.tableau r c)) := by
  unfold getEntry
  rw [pivot_row_other t r c i hi hir]
  have hleni : (t.tableau.getD i []).length = ncols := rowLen t.tableau ncols i hrect hi
  have hlenr : (t.tableau.getD r []).length = ncols := rowLen t.tableau ncols r hrect hr
  have hj1 : j < (List.zipWith (fun a b => a + (-((t.tableau.getD i []).getD c 0)) * b)
      (t.tableau.getD i [])
      ((t.tableau.getD r []).map
        (fun x => x * (1 / (t.tableau.getD r []).getD c 0)))).length := by
    rw [List.length_zipWith, List.length_map, hleni, hlenr, Nat.min_self]
    exact hj
  rw [List.getD_eq_getElem _ _ hj1, List.getElem_zipWith, List.getElem_map,
    List.getD_eq_getElem _ _ (by omega : j < (t.tableau.getD i []).length),
    List.getD_eq_getElem _ _ (by omega : j < (t.tableau.getD r []).length)]

theorem pivotCol_spec (t : Tableau) (ncols : ℕ)
    (hrect : ∀ row ∈ t.tableau, row.length = ncols)
    (hne : t.tableau ≠ [])
    (hnc : 2 ≤ ncols) :
    pivotCol t < ncols - 1 ∧
    ∀ j, j < ncols - 1 →
      signOf (t.objectives.getLastD Objective.obMax) * getEntry t.tableau 0 j ≤
        signOf (t.objectives.getLastD Objective.obMax) *
          getEntry t.tableau 0 (pivotCol t) := by
  unfold pivotCol
  have h0 : 0 < t.tableau.length := List.length_pos.mpr hne
  have hlen0 : (t.tableau.getD 0 []).length = ncols := rowLen t.tableau ncols 0 hrect h0
  have hmlen : (((t.tableau.getD 0 []).dropLast).map
      (fun x => signOf (t.objectives.getLastD Objective.obMax) * x)).length =
      ncols - 1 := by
    rw [List.length_map, List.length_dropLast, hlen0]
  have hmne : (((t.tableau.getD 0 []).dropLast).map
      (fun x => signOf (t.objectives.getLastD Objective.obMax) * x)) ≠ [] := by
    intro h
    rw [h] at hmlen
    simp at hmlen
    omega
  have hargmax := argmaxQ_lt_length _ hmne
  rw [hmlen] at hargmax
  have hgetD : ∀ j, j < ncols - 1 →
      (((t.tableau.getD 0 []).dropLast).map
        (fun x => signOf (t.objectives.getLastD Objective.obMax) * x)).getD j 0 =
      signOf (t.objectives.getLastD Objective.obMax) * getEntry t.tableau 0 j := by
    intro j hjn
    rw [getD_map_mul, getD_dropLast _ j (by omega)]
    rfl
  constructor
  · exact hargmax
  · intro j hjn
    have := getD_le_argmaxQ (((t.tableau.getD 0 []).dropLast).map
      (fun x => signOf (t.objectives.getLastD Objective.obMax) * x)) j
      (by rw [hmlen]; exact hjn)
    rw [hgetD j hjn, hgetD _ hargmax] at this
    exact this

/-- The tableau object that `mkTableau scenArr 2 0` constructs. -/
def scenT : Tableau :=
  { tableau := [[-3,-2,0,0,0],[1,1,1,0,4],[1,0,0,1,2]]
    n_rows := 3
    n_vars := 2
    n_artificial_vars := 0
    n_stages := 1
    n_slack := 2
    objectives := [Objective.obMax]
    col_titles := ["x1","x2","s1","s2","RHS"]
    stop_iter := false }

/-- The tableau object that `mkTableau rhsBreakArr 2 1` constructs. -/
def rhsBreakT : Tableau :=
  { tableau := [[-1,0,0,0],[2,0,0,1],[1,0,0,1]]
    n_rows := 3
    n_vars := 2
    n_artificial_vars := 1
    n_stages := 2
    n_slack := 0
    objectives := [Objective.obMin, Objective.obMax]
    col_titles := ["x1","x2","RHS"]
    stop_iter := false }

/-- The tableau object that `mkTableau unbArr 2 0` constructs. -/
def unbT : Tableau :=
  { tableau := [[-1,0,0,0],[-1,1,0,5]]
    n_rows := 2
    n_vars := 2
    n_artificial_vars := 0
    n_stages := 1
    n_slack := 1
    objectives := [Objective.obMax]
    col_titles := ["x1","x2","s1","RHS"]
    stop_iter := false }

/-- The tableau object that `mkTableau bealeArr 4 0` constructs. -/
def bealeT : Tableau :=
  { tableau := [[-3/4, 150, -1/50, 6, 0, 0, 0, 0],
                [1/4, -60, -1/25, 9, 1, 0, 0, 0],
                [1/2, -90, -1/50, 3, 0, 1, 0, 0],
                [0, 0, 1, 0, 0, 0, 1, 1]]
    n_rows := 4
    n_vars := 4
    n_artificial_vars := 0
    n_stages := 1
    n_slack := 3
    objectives := [Objective.obMax]
    col_titles := ["x1","x2","x3","x4","s1","s2","s3","RHS"]
    stop_iter := false }

/-- The tableau object that `mkTableau infArr 2 1` constructs. -/
def infT : Tableau :=
  { tableau := [[1,1,0,0,3],[-1,-1,0,0,0],[1,1,1,0,1],[1,1,0,1,3]]
    n_rows := 4
    n_vars := 2
    n_artificial_vars := 1
    n_stages := 2
    n_slack := 1
    objectives := [Objective.obMin, Objective.obMax]
    col_titles := ["x1","x2","s1","RHS"]
    stop_iter := false }

/-- The tableau object that `mkTableau wideArr 5 0` constructs. -/
def wideT : Tableau :=
  { tableau := [[1,0,2],[0,1,3]]
    n_rows := 2
    n_vars := 5
    n_artificial_vars := 0
    n_stages := 1
    n_slack := -3
    objectives := [Objective.obMax]
    col_titles := ["x1","x2","x3","x4","x5","RHS"]
    stop_iter := false }

/-- C1: on the valid single-phase tableau encoding "maximize 3x1 + 2x2 subject
to x1 + x2 <= 4, x1 <= 2, x1, x2 >= 0", construction succeeds, and running the
solver (run_simplex, which finishes by interpret_tableau) returns the solution
map with objective value P = 10 and x1 = 2, x2 = 2. -/
theorem C1_scenario_lp :
    mkTableau scenArr 2 0 = Except.ok scenT ∧
    scenT.n_stages = 1 ∧
    runSimplex scenT = Except.ok [("P", 10), ("x1", 2), ("x2", 2)] := by decide

/-- C2 (amended): for a tableau passing construction validation (rectangular,
nonnegative RHS column, stop flag clear), after a pivot at a position chosen
by find_pivot every RHS entry of the rows subject to the ratio test (row index
at least n_stages) is still nonnegative. (The original claim, covering every
row, fails: an objective row's RHS can turn negative, see the
counterexample.) -/
theorem C2_rhs_invariant_constraint_rows (t : Tableau) (ncols r c : ℕ)
    (hrect : ∀ row ∈ t.tableau, row.length = ncols)
    (hnc : 1 ≤ ncols)
    (hrows : t.n_rows = t.tableau.length)
    (hsi : t.stop_iter = false)
    (hrhs : ∀ row ∈ t.tableau, 0 ≤ lastEntry row)
    (hp : findPivot t = (t, Except.ok (r, c))) :
    ∀ i, t.n_stages ≤ i → i < (pivot t r c).tableau.length →
      0 ≤ lastEntry ((pivot t r c).tableau.getD i []) := by
  obtain ⟨hc, himp, hrn, hrl, hdiv, hmin, hfir⟩ := findPivot_pivot_case t r c hsi hrows hp
  have hminG : ∀ i, t.n_stages ≤ i → i < t.tableau.length → 0 < getEntry t.tableau i c →
      getEntry t.tableau r (ncols - 1) / getEntry t.tableau r c ≤
        getEntry t.tableau i (ncols - 1) / getEntry t.tableau i c := by
    intro i h1 h2 h3
    have hq := hmin i h1 h2 h3
    rw [lastEntry_getD t.tableau ncols r hrect hrl,
      lastEntry_getD t.tableau ncols i hrect h2] at hq
    exact hq
  intro i hi1 hi2
  rw [pivot_tableau_length] at hi2
  have hprect := pivot_rect t ncols r c hrect hrl
  have hplen : (pivot t r c).tableau.length = t.tableau.length := pivot_tableau_length t r c
  rw [lastEntry_getD _ ncols i hprect (by rw [hplen]; exact hi2)]
  have hinv : 0 < 1 / getEntry t.tableau r c := one_div_pos.mpr hdiv
  have hLr : 0 ≤ getEntry t.tableau r (ncols - 1) := by
    rw [← lastEntry_getD t.tableau ncols r hrect hrl, List.getD_eq_getElem _ _ hrl]
    exact hrhs _ (List.getElem_mem hrl)
  have hLi : 0 ≤ getEntry t.tableau i (ncols - 1) := by
    rw [← lastEntry_getD t.tableau ncols i hrect hi2, List.getD_eq_getElem _ _ hi2]
    exact hrhs _ (List.getElem_mem hi2)
  by_cases hir : i = r
  · subst hir
    rw [pivot_entry_self t ncols i c (ncols - 1) hrect hrl (by omega)]
    exact mul_nonneg hLr (le_of_lt hinv)
  · rw [pivot_entry_other t ncols r c i (ncols - 1) hrect hi2 hrl (by omega) hir]
    by_cases hac : 0 < getEntry t.tableau i c
    · have hratio := hminG i hi1 hi2 hac
      have h2 : (getEntry t.tableau r (ncols - 1) / getEntry t.tableau r c) *
          getEntry t.tableau i c ≤ getEntry t.tableau i (ncols - 1) := by
        rw [← le_div_iff₀ hac]
        exact hratio
      have h3 : getEntry t.tableau i (ncols - 1) +
          (-(getEntry t.tableau i c)) *
            (getEntry t.tableau r (ncols - 1) * (1 / getEntry t.tableau r c)) =
          getEntry t.tableau i (ncols - 1) -
            (getEntry t.tableau r (ncols - 1) / getEntry t.tableau r c) *
              getEntry t.tableau i c := by
        rw [div_eq_mul_one_div]
        ring
      rw [h3]
      linarith [h2]
    · have ha : 0 ≤ -(getEntry t.tableau i c) := by
        have := le_of_not_lt hac
        linarith
      have hRnn : 0 ≤ getEntry t.tableau r (ncols - 1) * (1 / getEntry t.tableau r c) :=
        mul_nonneg hLr (le_of_lt hinv)
      have hprod := mul_nonneg ha hRnn
      linarith [hLi, hprod]

/-- C2 witness: the amended invariant applied to the concrete scenario
tableau at the pivot find_pivot chooses for it, position (2, 0), read off at
constraint row 1. -/
theorem C2_witness :
    0 ≤ lastEntry ((pivot scenT 2 0).tableau.getD 1 []) :=
  C2_rhs_invariant_constraint_rows scenT 5 2 0 (by decide) (by decide) (by decide)
    (by decide) (by decide) (by decide) 1 (by decide) (by decide)

/-- C2 counterexample: a tableau that passes construction validation (two-phase,
all RHS entries nonnegative) on which the pivot chosen by find_pivot drives the
RHS entry of row 1 (the second objective row) to -1 < 0, refuting RHS
nonnegativity for every row. -/
theorem C2_counterexample :
    mkTableau rhsBreakArr 2 1 = Except.ok rhsBreakT ∧
    rhsBreakT.stop_iter = false ∧
    findPivot rhsBreakT = (rhsBreakT, Except.ok (2, 0)) ∧
    lastEntry ((pivot rhsBreakT 2 0).tableau.getD 1 []) = -1 := by decide

theorem runLoop_succ (n : ℕ) (t : Tableau) :
    runLoop (n + 1) t =
      if t.objectives.isEmpty then .ok (interpretTableau t)
      else
        match findPivot t with
        | (_, .error e) => .error e
        | (t', .ok rc) =>
          if t'.stop_iter then runLoop n (changeStage t')
          else runLoop n (pivot t' rc.1 rc.2) := rfl

/-- C3: find_pivot implements exactly the documented selection rule and does
not mutate the matrix. The entering column is the objective-row column
(excluding RHS) of maximal signed value (sign +1 for minimize, -1 for
maximize); if the best signed value is nonpositive the stop flag is set and
the sentinel (0, 0) is returned; otherwise the leaving row is, among
constraint rows (index at least n_stages) with positive coefficient in the
entering column, the first row attaining the minimum ratio RHS/coefficient. -/
theorem C3_find_pivot_rule (t : Tableau) (ncols : ℕ)
    (hrect : ∀ row ∈ t.tableau, row.length = ncols)
    (hrows : t.n_rows = t.tableau.length)
    (hne : t.tableau ≠ [])
    (hnc : 2 ≤ ncols)
    (hsi : t.stop_iter = false) :
    (findPivot t).1.tableau = t.tableau ∧
    (findPivot t = ({ t with stop_iter := true }, Except.ok (0, 0)) ↔
      ∀ j, j < ncols - 1 →
        signOf (t.objectives.getLastD Objective.obMax) * getEntry t.tableau 0 j ≤ 0) ∧
    (∀ r c, findPivot t = (t, Except.ok (r, c)) →
      c < ncols - 1 ∧
      (∀ j, j < ncols - 1 →
        signOf (t.objectives.getLastD Objective.obMax) * getEntry t.tableau 0 j ≤
          signOf (t.objectives.getLastD Objective.obMax) * getEntry t.tableau 0 c) ∧
      0 < signOf (t.objectives.getLastD Objective.obMax) * getEntry t.tableau 0 c ∧
      t.n_stages ≤ r ∧ r < t.tableau.length ∧ 0 < getEntry t.tableau r c ∧
      (∀ i, t.n_stages ≤ i → i < t.tableau.length → 0 < getEntry t.tableau i c →
        getEntry t.tableau r (ncols - 1) / getEntry t.tableau r c ≤
          getEntry t.tableau i (ncols - 1) / getEntry t.tableau i c) ∧
      (∀ i, t.n_stages ≤ i → i < r → 0 < getEntry t.tableau i c →
        getEntry t.tableau r (ncols - 1) / getEntry t.tableau r c <
          getEntry t.tableau i (ncols - 1) / getEntry t.tableau i c)) := by
  obtain ⟨hcl, hmax⟩ := pivotCol_spec t ncols hrect hne hnc
  refine ⟨findPivot_tableau_eq t, ?_, ?_⟩
  · constructor
    · intro hstopEq j hj
      by_cases hcond : signOf (t.objectives.getLastD Objective.obMax) *
          getEntry t.tableau 0 (pivotCol t) ≤ 0
      · exact le_trans (hmax j hj) hcond
      · exfalso
        rw [findPivot_eq, if_neg hcond] at hstopEq
        rcases hq : nanargminQ (quotientsOf t) with _ | i
        · rw [hq] at hstopEq
          dsimp only at hstopEq
          have h2 := congrArg (fun p => p.2) hstopEq
          simp at h2
        · rw [hq] at hstopEq
          dsimp only at hstopEq
          have h1 := congrArg (fun p => p.1.stop_iter) hstopEq
          simp only at h1
          rw [hsi] at h1
          exact absurd h1 (by simp)
    · intro hall
      rw [findPivot_eq, if_pos (hall (pivotCol t) hcl)]
  · intro r c hp
    obtain ⟨hc, himp, hrn, hrl, hdiv, hmin, hfir⟩ := findPivot_pivot_case t r c hsi hrows hp
    subst hc
    refine ⟨hcl, hmax, himp, hrn, hrl, hdiv, ?_, ?_⟩
    · intro i h1 h2 h3
      have hq := hmin i h1 h2 h3
      rw [lastEntry_getD t.tableau ncols r hrect hrl,
        lastEntry_getD t.tableau ncols i hrect h2] at hq
      exact hq
    · intro i h1 h2 h3
      have hq := hfir i h1 h2 h3
      rw [lastEntry_getD t.tableau ncols r hrect hrl,
        lastEntry_getD t.tableau ncols i hrect (by omega)] at hq
      exact hq

/-- C3 witness: the rule applied to the concrete scenario tableau; in
particular find_pivot leaves its matrix unchanged. -/
theorem C3_witness : (findPivot scenT).1.tableau = scenT.tableau :=
  (C3_find_pivot_rule scenT 5 (by decide) (by decide) (by decide) (by decide)
    (by decide)).1

/-- C4: whenever find_pivot faces an improving entering column in which every
ratio-test row has a nonpositive coefficient, run_simplex surfaces the all-NaN
ValueError (the caller-visible unbounded outcome of the source, an uncaught
numpy exception) and never returns a numeric solution map. -/
theorem C4_unbounded_outcome (t : Tableau)
    (hobj : t.objectives ≠ [])
    (himp : 0 < signOf (t.objectives.getLastD Objective.obMax) *
      getEntry t.tableau 0 (pivotCol t))
    (hall : ∀ i, t.n_stages ≤ i → i < t.n_rows →
      getEntry t.tableau i (pivotCol t) ≤ 0) :
    runSimplex t = Except.error SimplexError.allNanSlice ∧
    ∀ d, runSimplex t ≠ Except.ok d := by
  have hfp : findPivot t = (t, Except.error SimplexError.allNanSlice) := by
    rw [findPivot_eq, if_neg (not_le.mpr himp)]
    have hnone : nanargminQ (quotientsOf t) = none := by
      rw [nanargminQ_eq_none_iff]
      intro o ho
      unfold quotientsOf at ho
      rcases List.mem_map.mp ho with ⟨row, hrow, rfl⟩
      rcases List.mem_iff_getElem.mp hrow with ⟨k, hk, hrowk⟩
      have hlen := hk
      simp only [List.length_take, List.length_drop] at hlen
      have hkr : k < t.n_rows - t.n_stages := lt_of_lt_of_le hlen (Nat.min_le_left _ _)
      have hkl : k < t.tableau.length - t.n_stages :=
        lt_of_lt_of_le hlen (Nat.min_le_right _ _)
      have hk2 : t.n_stages + k < t.tableau.length := by omega
      have hrowE : row = t.tableau[t.n_stages + k] := by
        rw [← hrowk, List.getElem_take, List.getElem_drop]
      have hent : row.getD (pivotCol t) 0 = getEntry t.tableau (t.n_stages + k) (pivotCol t) := by
        unfold getEntry
        rw [List.getD_eq_getElem _ _ hk2, hrowE]
      have hle := hall (t.n_stages + k) (Nat.le_add_right _ _) (by omega)
      rw [if_neg (by rw [hent]; exact not_lt.mpr hle)]
    rw [hnone]
  have hrun : runSimplex t = Except.error SimplexError.allNanSlice := by
    unfold runSimplex maxiter
    rw [show (100 : ℕ) = 99 + 1 from rfl, runLoop_succ,
      if_neg (by simpa using hobj), hfp]
  exact ⟨hrun, fun d => by rw [hrun]; simp⟩

/-- C4 witness: the concrete unbounded tableau (entering column x1, both rows
with nonpositive coefficient) makes run_simplex raise the all-NaN error. -/
theorem C4_witness :
    mkTableau unbArr 2 0 = Except.ok unbT ∧
    runSimplex unbT = Except.error SimplexError.allNanSlice :=
  ⟨by decide, (C4_unbounded_outcome unbT (by decide) (by decide)
    (by
      intro i h1 h2
      have h1a : 1 ≤ i := h1
      have h2a : i < 2 := h2
      interval_cases i
      decide)).1⟩

/-- C6: a pivot applied at a position returned by find_pivot with the stop
flag unset has a strictly positive (hence nonzero) pivot entry, so the
normalizing division is well defined; afterwards the pivot row equals the old
pivot row divided by the pivot value, every other row r equals
r - r[col] * normalized_pivot_row, and the pivot column is the identity
column: 1 at the pivot row and 0 in every other row, objective rows
included. -/
theorem C6_pivot_execution (t : Tableau) (ncols r c : ℕ)
    (hrect : ∀ row ∈ t.tableau, row.length = ncols)
    (hrows : t.n_rows = t.tableau.length)
    (hne : t.tableau ≠ [])
    (hnc : 2 ≤ ncols)
    (hsi : t.stop_iter = false)
    (hp : findPivot t = (t, Except.ok (r, c))) :
    0 < getEntry t.tableau r c ∧
    (pivot t r c).tableau.getD r [] =
      (t.tableau.getD r []).map (fun x => x / getEntry t.tableau r c) ∧
    (∀ i, i < t.tableau.length → i ≠ r →
      (pivot t r c).tableau.getD i [] =
        List.zipWith (fun a b => a - getEntry t.tableau i c * b)
          (t.tableau.getD i [])
          ((t.tableau.getD r []).map (fun x => x / getEntry t.tableau r c))) ∧
    getEntry (pivot t r c).tableau r c = 1 ∧
    (∀ i, i < t.tableau.length → i ≠ r → getEntry (pivot t r c).tableau i c = 0) := by
  obtain ⟨hc, himp, hrn, hrl, hdiv, hmin, hfir⟩ := findPivot_pivot_case t r c hsi hrows hp
  obtain ⟨hcl, hmax⟩ := pivotCol_spec t ncols hrect hne hnc
  have hc1 : c < ncols - 1 := hc ▸ hcl
  have hcn : c < ncols := by omega
  have hpm : (t.tableau.getD r []).map (fun x => x * (1 / getEntry t.tableau r c)) =
      (t.tableau.getD r []).map (fun x => x / getEntry t.tableau r c) :=
    List.map_congr_left (fun x _ => mul_one_div x _)
  have hnormEq : getEntry t.tableau r c * (1 / getEntry t.tableau r c) = 1 :=
    mul_one_div_cancel (ne_of_gt hdiv)
  refine ⟨hdiv, ?_, ?_, ?_, ?_⟩
  · rw [pivot_row_self t r c hrl]
    exact hpm
  · intro i hi hir
    rw [pivot_row_other t r c i hi hir]
    have hfg : (fun a b => a + (-((t.tableau.getD i []).getD c 0)) * b) =
        (fun (a b : ℚ) => a - getEntry t.tableau i c * b) := by
      funext a b
      show a + (-((t.tableau.getD i []).getD c 0)) * b =
        a - getEntry t.tableau i c * b
      unfold getEntry
      ring
    rw [hfg]
    exact congrArg _ hpm
  · rw [pivot_entry_self t ncols r c c hrect hrl hcn]
    exact hnormEq
  · intro i hi hir
    rw [pivot_entry_other t ncols r c i c hrect hi hrl hcn hir, hnormEq]
    ring

/-- C6 witness: at the scenario tableau's first pivot (2, 0), the pivot column
becomes the identity column. -/
theorem C6_witness : getEntry (pivot scenT 2 0).tableau 2 0 = 1 :=
  (C6_pivot_execution scenT 5 2 0 (by decide) (by decide) (by decide) (by decide)
    (by decide) (by decide)).2.2.2.1

/-- Whether an `Except` value is a success. -/
def isOkE {ε α : Type} : Except ε α → Bool
  | .ok _ => true
  | .error _ => false

/-- C5 counterexample: a matrix whose entries are all integers (denominator 1,
hence real numbers), carried by the int64-dtype array numpy infers for integer
literals; construction rejects it with the dtype TypeError instead of
accepting it and normalizing to floating point. -/
theorem C5_counterexample :
    (∀ row ∈ intArr.data, ∀ x ∈ row, x.den = 1) ∧
    mkTableau intArr 2 0 = Except.error SimplexError.typeErr ∧
    isOkE (mkTableau intArr 2 0) = false := by decide

/-- C5 (amended): the construction checks run in source order: first the dtype
(TypeError exactly when the dtype is not float64 — so an integer-dtype matrix
is rejected, not normalized), then RHS nonnegativity (ValueError exactly when
the dtype is float64 and some RHS entry is negative), then the counts
(ValueError exactly when the earlier checks pass and n_vars < 2 or
n_artificial_vars < 0); construction succeeds exactly when all checks pass,
and then the objectives stack is [min, max] when artificial variables are
present and [max] otherwise. -/
theorem C5_construction_contract (arr : NDArray) (nv na : ℤ) :
    ((∃ t, mkTableau arr nv na = Except.ok t) ↔
      (arr.dtype = Dtype.float64 ∧ (∀ row ∈ arr.data, 0 ≤ lastEntry row) ∧
        2 ≤ nv ∧ 0 ≤ na)) ∧
    (mkTableau arr nv na = Except.error SimplexError.typeErr ↔
      arr.dtype ≠ Dtype.float64) ∧
    (mkTableau arr nv na = Except.error SimplexError.rhsErr ↔
      (arr.dtype = Dtype.float64 ∧ ∃ row ∈ arr.data, lastEntry row < 0)) ∧
    (mkTableau arr nv na = Except.error SimplexError.dimErr ↔
      (arr.dtype = Dtype.float64 ∧ (∀ row ∈ arr.data, 0 ≤ lastEntry row) ∧
        (nv < 2 ∨ na < 0))) ∧
    (∀ t, mkTableau arr nv na = Except.ok t →
      t.objectives = if na = 0 then [Objective.obMax]
        else [Objective.obMin, Objective.obMax]) := by
  have hb : (rhsNonneg arr.data = true) ↔ ∀ row ∈ arr.data, 0 ≤ lastEntry row := by
    unfold rhsNonneg
    simp
  have hbn : ¬ (rhsNonneg arr.data = true) ↔ ∃ row ∈ arr.data, lastEntry row < 0 := by
    constructor
    · intro h
      by_contra hno
      push_neg at hno
      exact h (hb.mpr hno)
    · rintro ⟨row, hrow, hlt⟩ htrue
      exact absurd (hb.mp htrue row hrow) (not_le.mpr hlt)
  by_cases h1 : arr.dtype = Dtype.float64
  · by_cases h2 : rhsNonneg arr.data
    · by_cases h3 : nv < 2 ∨ na < 0
      · have hmk : mkTableau arr nv na = Except.error SimplexError.dimErr := by
          unfold mkTableau
          rw [if_neg (by simp [h1]), if_neg (by simpa using h2), if_pos h3]
        refine ⟨?_, ?_, ?_, ?_, ?_⟩
        · rw [hmk]
          constructor
          · rintro ⟨t, ht⟩
            exact absurd ht (by simp)
          · rintro ⟨-, -, hv, ha⟩
            rcases h3 with h | h <;> omega
        · rw [hmk]
          simp [h1]
        · rw [hmk]
          constructor
          · intro h
            exact absurd h (by simp)
          · rintro ⟨-, row, hrow, hlt⟩
            exact absurd (hb.mp h2 row hrow) (not_le.mpr hlt)
        · rw [hmk]
          constructor
          · intro _
            exact ⟨h1, hb.mp h2, h3⟩
          · intro _
            rfl
        · intro t ht
          rw [hmk] at ht
          exact absurd ht (by simp)
      · have hmk : mkTableau arr nv na = Except.ok
            { tableau := arr.data
              n_rows := arr.data.length
              n_vars := nv
              n_artificial_vars := na
              n_stages := if 0 < na then 2 else 1
              n_slack := ((arr.data.getD 0 []).length : ℤ) - nv - na - 1
              objectives := if na = 0 then [Objective.obMax]
                else [Objective.obMin, Objective.obMax]
              col_titles := generate_col_titles nv
                (((arr.data.getD 0 []).length : ℤ) - nv - na - 1)
              stop_iter := false } := by
          unfold mkTableau
          rw [if_neg (by simp [h1]), if_neg (by simpa using h2), if_neg h3]
        refine ⟨?_, ?_, ?_, ?_, ?_⟩
        · constructor
          · intro _
            refine ⟨h1, hb.mp h2, ?_, ?_⟩ <;> omega
          · intro _
            exact ⟨_, hmk⟩
        · rw [hmk]
          simp [h1]
        · rw [hmk]
          constructor
          · intro h
            exact absurd h (by simp)
          · rintro ⟨-, row, hrow, hlt⟩
            exact absurd (hb.mp h2 row hrow) (not_le.mpr hlt)
        · rw [hmk]
          constructor
          · intro h
            exact absurd h (by simp)
          · rintro ⟨-, -, h3'⟩
            exact absurd h3' h3
        · intro t ht
          rw [hmk] at ht
          rw [← Except.ok.inj ht]
    · have hmk : mkTableau arr nv na = Except.error SimplexError.rhsErr := by
        unfold mkTableau
        rw [if_neg (by simp [h1]), if_pos h2]
      refine ⟨?_, ?_, ?_, ?_, ?_⟩
      · rw [hmk]
        constructor
        · rintro ⟨t, ht⟩
          exact absurd ht (by simp)
        · rintro ⟨-, hall, -, -⟩
          exact (h2 (hb.mpr hall)).elim
      · rw [hmk]
        simp [h1]
      · rw [hmk]
        constructor
        · intro _
          exact ⟨h1, hbn.mp h2⟩
        · intro _
          rfl
      · rw [hmk]
        constructor
        · intro h
          exact absurd h (by simp)
        · rintro ⟨-, hall, -⟩
          exact (h2 (hb.mpr hall)).elim
      · intro t ht
        rw [hmk] at ht
        exact absurd ht (by simp)
  · have hmk : mkTableau arr nv na = Except.error SimplexError.typeErr := by
      unfold mkTableau
      rw [if_pos h1]
    refine ⟨?_, ?_, ?_, ?_, ?_⟩
    · rw [hmk]
      constructor
      · rintro ⟨t, ht⟩
        exact absurd ht (by simp)
      · rintro ⟨hf, -⟩
        exact absurd hf h1
    · rw [hmk]
      constructor
      · intro _
        exact h1
      · intro _
        rfl
    · rw [hmk]
      constructor
      · intro h
        exact absurd h (by simp)
      · rintro ⟨hf, -⟩
        exact absurd hf h1
    · rw [hmk]
      constructor
      · intro h
        exact absurd h (by simp)
      · rintro ⟨hf, -⟩
        exact absurd hf h1
    · intro t ht
      rw [hmk] at ht
      exact absurd ht (by simp)

/-- C5 witness: the contract applied to the concrete scenario input, whose
single-phase construction yields the objectives stack [max]. -/
theorem C5_witness :
    scenT.objectives = if (0 : ℤ) = 0 then [Objective.obMax]
      else [Objective.obMin, Objective.obMax] :=
  (C5_construction_contract scenArr 2 0).2.2.2.2 scenT (by decide)

theorem stillRunning_runLoop : ∀ (n : ℕ) (t : Tableau),
    stillRunning (iterT n t) = true → runLoop n t = Except.ok []
  | 0, _, _ => rfl
  | n + 1, t, h => by
    unfold iterT at h
    rcases hs : stepT t with e | o
    · rw [hs] at h
      simp [stillRunning] at h
    · rcases o with _ | t1
      · rw [hs] at h
        simp [stillRunning] at h
      · rw [hs] at h
        dsimp only at h
        rw [runLoop_succ]
        unfold stepT at hs
        by_cases hobj : t.objectives.isEmpty
        · rw [if_pos hobj] at hs
          exact absurd hs (by simp)
        · rw [if_neg hobj] at hs
          rw [if_neg hobj]
          rcases hfp : findPivot t with ⟨t', res⟩
          rw [hfp] at hs
          rcases res with e | rc
          · dsimp only at hs
            exact absurd hs (by simp)
          · dsimp only at hs
            have ht1 : (if t'.stop_iter then changeStage t'
                else pivot t' rc.1 rc.2) = t1 := by
              simpa using hs
            dsimp only
            by_cases hst : t'.stop_iter
            · rw [if_pos hst]
              rw [if_pos hst] at ht1
              rw [ht1]
              exact stillRunning_runLoop n t1 h
            · rw [if_neg hst]
              rw [if_neg hst] at ht1
              rw [ht1]
              exact stillRunning_runLoop n t1 h

/-- C7: run_simplex executes at most maxiter = 100 loop iterations; whenever
the loop is still running after the 100th iteration (the objective stack was
never emptied and no error was raised), the result is the empty dictionary,
distinct from every normal solution map since interpret_tableau always emits
the "P" entry first. -/
theorem C7_iteration_budget (t : Tableau)
    (h : stillRunning (iterT maxiter t) = true) :
    maxiter = 100 ∧
    runSimplex t = Except.ok [] ∧
    ∀ u : Tableau, interpretTableau u ≠ [] := by
  refine ⟨rfl, stillRunning_runLoop maxiter t h, ?_⟩
  intro u hu
  exact absurd hu (by simp [interpretTableau])

/-- C7 witness: Beale's cycling tableau; after 100 iterations the loop is
still cycling (period 6), and run_simplex returns the empty dictionary. -/
theorem C7_witness :
    mkTableau bealeArr 4 0 = Except.ok bealeT ∧
    maxiter = 100 ∧ runSimplex bealeT = Except.ok [] :=
  ⟨by decide, (C7_iteration_budget bealeT (by decide)).1,
    (C7_iteration_budget bealeT (by decide)).2.1⟩

theorem runLoop_error_only_allNan : ∀ (n : ℕ) (t : Tableau) (e : SimplexError),
    runLoop n t = Except.error e → e = SimplexError.allNanSlice
  | 0, t, e, h => by
    exact absurd h (by simp [runLoop])
  | n + 1, t, e, h => by
    rw [runLoop_succ] at h
    by_cases hobj : t.objectives.isEmpty
    · rw [if_pos hobj] at h
      exact absurd h (by simp)
    · rw [if_neg hobj] at h
      rcases hfp : findPivot t with ⟨t', res⟩
      rw [hfp] at h
      rcases res with e' | rc
      · dsimp only at h
        have he' : e' = SimplexError.allNanSlice := by
          rw [findPivot_eq] at hfp
          by_cases hc : signOf (t.objectives.getLastD Objective.obMax) *
              getEntry t.tableau 0 (pivotCol t) ≤ 0
          · rw [if_pos hc] at hfp
            exact absurd (congrArg (fun p => p.2) hfp) (by simp)
          · rw [if_neg hc] at hfp
            rcases hq : nanargminQ (quotientsOf t) with _ | i
            · rw [hq] at hfp
              dsimp only at hfp
              have h2 := congrArg (fun p => p.2) hfp
              simp only at h2
              exact (Except.error.inj h2).symm
            · rw [hq] at hfp
              dsimp only at hfp
              exact absurd (congrArg (fun p => p.2) hfp) (by simp)
        rw [← Except.error.inj h]
        exact he'
      · dsimp only at h
        by_cases hst : t'.stop_iter
        · rw [if_pos hst] at h
          exact runLoop_error_only_allNan n (changeStage t') e h
        · rw [if_neg hst] at h
          exact runLoop_error_only_allNan n (pivot t' rc.1 rc.2) e h

/-- C8 (amended): the solver performs no infeasibility check: the only error
outcome run_simplex can produce is the all-NaN ValueError of the ratio test,
so no infeasibility outcome is ever surfaced; on an infeasible two-phase
problem the run can end in a normal-looking numeric map (see the
counterexample). -/
theorem C8_no_infeasibility_outcome (t : Tableau) (e : SimplexError)
    (h : runSimplex t = Except.error e) : e = SimplexError.allNanSlice :=
  runLoop_error_only_allNan maxiter t e h

/-- C8 witness: the error characterization applied to the concrete unbounded
tableau, the one input family that does produce an error outcome. -/
theorem C8_witness :
    runSimplex unbT = Except.error SimplexError.allNanSlice ∧
    SimplexError.allNanSlice = SimplexError.allNanSlice :=
  ⟨by decide, C8_no_infeasibility_outcome unbT SimplexError.allNanSlice (by decide)⟩

/-- C8 counterexample: a valid two-phase tableau encoding the infeasible LP
"x1 + x2 <= 1 and x1 + x2 = 3". Phase 1 stops immediately, with residual
artificial value 3 > 0 in the phase-1 objective row at the stage transition,
yet the solver surfaces no infeasibility outcome: it returns the
normal-looking numeric map {P: 0}. -/
theorem C8_counterexample :
    mkTableau infArr 2 1 = Except.ok infT ∧
    0 < infT.n_artificial_vars ∧
    (findPivot infT).1.stop_iter = true ∧
    lastEntry (infT.tableau.getD 0 []) = 3 ∧
    runSimplex infT = Except.ok [("P", 0)] := by decide

theorem filter_range_eq_singleton_iff (p : ℕ → Bool) (n r : ℕ) :
    (List.range n).filter p = [r] ↔
      (r < n ∧ p r = true ∧ ∀ j, j < n → j ≠ r → p j = false) := by
  induction n with
  | zero => simp
  | succ n ih =>
    rw [List.range_succ, List.filter_append]
    by_cases hp : p n = true
    · rw [show List.filter p [n] = [n] by simp [hp]]
      constructor
      · intro h
        rcases hfil : (List.range n).filter p with _ | ⟨a, l⟩
        · rw [hfil] at h
          obtain rfl : n = r := by simpa using h
          refine ⟨by omega, hp, ?_⟩
          intro j hj hjr
          have hlt : j < n := by omega
          have hnp := List.filter_eq_nil_iff.mp hfil j (List.mem_range.mpr hlt)
          simpa using hnp
        · rw [hfil] at h
          exfalso
          have hl := congrArg List.length h
          simp at hl
      · rintro ⟨hr, hpr, hall⟩
        have hrn : r = n := by
          by_contra hne
          have hfalse := hall n (by omega) (fun hh => hne hh.symm)
          simp [hp] at hfalse
        have hnil : (List.range n).filter p = [] := by
          rw [List.filter_eq_nil_iff]
          intro a ha
          have han : a < n := List.mem_range.mp ha
          simp [hall a (by omega) (by omega)]
        rw [hnil, hrn]
        rfl
    · rw [show List.filter p [n] = [] by simp [Bool.eq_false_iff.mpr hp]]
      rw [List.append_nil, ih]
      constructor
      · rintro ⟨hr, hpr, hall⟩
        refine ⟨by omega, hpr, ?_⟩
        intro j hj hjr
        by_cases hjn : j = n
        · subst hjn
          exact Bool.eq_false_iff.mpr hp
        · exact hall j (by omega) hjr
      · rintro ⟨hr, hpr, hall⟩
        have hrn : r ≠ n := by
          intro hrr
          subst hrr
          exact hp hpr
        exact ⟨by omega, hpr, fun j hj hjr => hall j (by omega) hjr⟩

/-- C9: interpret_tableau's output starts with the objective entry
("P", |tableau[0, -1]|); for each decision-variable column the loop body emits
the variable's label mapped to the unique basic row's RHS exactly when that
column has a single nonzero entry equal to 1, omits the variable otherwise
(implicitly zero), and the emitted pairs are members of the final map; the
method only reads the object (a pure function here), so a second call on the
same terminal tableau yields the identical output. -/
theorem C9_interpret_tableau (t : Tableau) :
    (interpretTableau t =
      ("P", |lastEntry (t.tableau.getD 0 [])|) ::
        (List.range t.n_vars.toNat).filterMap (basicVar t)) ∧
    (∀ i r, i < t.n_vars.toNat →
      (r < t.tableau.length ∧ getEntry t.tableau r i = 1 ∧
        (∀ r', r' < t.tableau.length → r' ≠ r → getEntry t.tableau r' i = 0)) →
      basicVar t i =
        some (t.col_titles.getD i "", lastEntry (t.tableau.getD r []))) ∧
    (∀ i, i < t.n_vars.toNat →
      (¬ ∃ r, r < t.tableau.length ∧ getEntry t.tableau r i = 1 ∧
        ∀ r', r' < t.tableau.length → r' ≠ r → getEntry t.tableau r' i = 0) →
      basicVar t i = none) ∧
    (∀ i p, i < t.n_vars.toNat → basicVar t i = some p →
      p ∈ interpretTableau t) ∧
    interpretTableau t = interpretTableau t := by
  refine ⟨rfl, ?_, ?_, ?_, rfl⟩
  · rintro i r hi ⟨hr, h1, hall⟩
    have hfil : (List.range t.tableau.length).filter
        (fun r' => decide (getEntry t.tableau r' i ≠ 0)) = [r] := by
      rw [filter_range_eq_singleton_iff]
      refine ⟨hr, by simp [h1], ?_⟩
      intro j hj hjr
      simp [hall j hj hjr]
    unfold basicVar
    rw [hfil]
    dsimp only
    rw [if_pos h1]
  · intro i hi hnex
    unfold basicVar
    rcases hfil : (List.range t.tableau.length).filter
        (fun r' => decide (getEntry t.tableau r' i ≠ 0)) with _ | ⟨a, l⟩
    · rfl
    · rcases l with _ | ⟨b, l2⟩
      · dsimp only
        obtain ⟨haln, hpa, hothers⟩ := (filter_range_eq_singleton_iff _ _ _).mp hfil
        by_cases ha1 : getEntry t.tableau a i = 1
        · exfalso
          apply hnex
          refine ⟨a, haln, ha1, ?_⟩
          intro r' hr' hne
          have h0 := hothers r' hr' hne
          simpa using h0
        · rw [if_neg ha1]
      · rfl
  · intro i p hi hb
    exact List.mem_cons_of_mem _ (List.mem_filterMap.mpr
      ⟨i, List.mem_range.mpr hi, hb⟩)

/-- C9 witness: on the wide tableau, column 1 (x1) is a unit column with basic
row 0, so the loop body emits ("x1", 2). -/
theorem C9_witness : basicVar wideT 0 = some ("x1", 2) := by
  have h := (C9_interpret_tableau wideT).2.1 0 0 (by decide)
    ⟨by decide, by decide, by
      intro r' h1 h2
      rcases r' with _ | _ | m
      · exact absurd rfl h2
      · decide
      · have hl : wideT.tableau.length = 2 := rfl
        rw [hl] at h1
        omega⟩
  exact h.trans (by decide)

/-- C10 (amended): construction performs no consistency check between the
declared counts and the matrix shape: whenever the dtype and RHS checks pass,
n_vars >= 2, n_artificial_vars >= 0, and n_vars + n_artificial_vars + 1
exceeds the number of matrix columns, construction still succeeds, the derived
n_slack is negative, and the generated column-title list has exactly
n_vars + 1 entries — which may be fewer or more than the matrix's column
count (the original "always fewer" fails, see the counterexample). -/
theorem C10_no_shape_check (arr : NDArray) (nv na : ℤ)
    (hd : arr.dtype = Dtype.float64)
    (hr : ∀ row ∈ arr.data, 0 ≤ lastEntry row)
    (hv : 2 ≤ nv) (ha : 0 ≤ na)
    (hover : ((arr.data.getD 0 []).length : ℤ) < nv + na + 1) :
    ∃ t, mkTableau arr nv na = Except.ok t ∧
      t.n_slack < 0 ∧
      t.col_titles.length = nv.toNat + 1 := by
  have hrb : rhsNonneg arr.data = true := by
    unfold rhsNonneg
    rw [List.all_eq_true]
    intro row hrow
    simpa using hr row hrow
  have hmk : mkTableau arr nv na = Except.ok
      { tableau := arr.data
        n_rows := arr.data.length
        n_vars := nv
        n_artificial_vars := na
        n_stages := if 0 < na then 2 else 1
        n_slack := ((arr.data.getD 0 []).length : ℤ) - nv - na - 1
        objectives := if na = 0 then [Objective.obMax]
          else [Objective.obMin, Objective.obMax]
        col_titles := generate_col_titles nv
          (((arr.data.getD 0 []).length : ℤ) - nv - na - 1)
        stop_iter := false } := by
    unfold mkTableau
    rw [if_neg (by simp [hd]), if_neg (by simp [hrb]), if_neg (by omega)]
  refine ⟨_, hmk, ?_, ?_⟩
  · show ((arr.data.getD 0 []).length : ℤ) - nv - na - 1 < 0
    omega
  · show (generate_col_titles nv
      (((arr.data.getD 0 []).length : ℤ) - nv - na - 1)).length = nv.toNat + 1
    unfold generate_col_titles
    have hz : (((arr.data.getD 0 []).length : ℤ) - nv - na - 1).toNat = 0 := by omega
    rw [hz]
    simp

/-- C10 witness: the no-check behavior applied to the concrete 3-column matrix
with n_vars = 5. -/
theorem C10_witness :
    wideT.n_slack < 0 ∧ wideT.col_titles.length = (5 : ℤ).toNat + 1 := by
  obtain ⟨t, hmk, h1, h2⟩ := C10_no_shape_check wideArr 5 0 (by decide) (by decide)
    (by decide) (by decide) (by decide)
  have ht : t = wideT := by
    have h3 : (Except.ok t : Except SimplexError Tableau) = Except.ok wideT := by
      rw [← hmk]
      decide
    exact Except.ok.inj h3
  rw [← ht]
  exact ⟨h1, h2⟩

/-- C10 counterexample: with a 3-column matrix and n_vars = 5 construction
succeeds and n_slack = -3 < 0, but the generated column-title list has 6
entries — more, not fewer, than the matrix's 3 columns, refuting the claim's
"fewer entries than the matrix has columns". -/
theorem C10_counterexample :
    mkTableau wideArr 5 0 = Except.ok wideT ∧
    wideT.n_slack = -3 ∧
    wideT.col_titles.length = 6 ∧
    (wideT.tableau.getD 0 []).length = 3 ∧
    ¬ wideT.col_titles.length < (wideT.tableau.getD 0 []).length := by decide

end Simplex
